import Mathlib

/-!
Shallow embedding of the be-sharetimewithme service (Go): the binary-week
codec (`convertBinaryToDecimal`, `convertDecimalWeekToBinary`), the stored
record model, and the three HTTP handlers registered in `setRoutes`
(`POST /instance`, `GET /instance/{id}`, `DELETE /instance/{id}/{username}`).
The MongoDB collection is modelled as an insertion-ordered list of records;
`FindOne` returns the first match, `DeleteOne` removes the first match, and
`CountDocuments` counts exact matches, mirroring the driver calls made by the
handlers.
-/

namespace ShareTime

/-- Digit value of one character under Go `strconv.ParseUint`'s digit scan for
an explicit base: `'0'..'9'` map to 0–9, letters (case-insensitively, via
`c | 0x20`) map to 10–35, anything else is a syntax error, and a digit value
`≥ base` is a syntax error. -/
def goDigit (base : Nat) (c : Char) : Option Nat :=
  let n := c.toNat
  let d : Option Nat :=
    if 48 ≤ n ∧ n ≤ 57 then some (n - 48)
    else if 97 ≤ (n ||| 32) ∧ (n ||| 32) ≤ 122 then some ((n ||| 32) - 97 + 10)
    else none
  match d with
  | some v => if v < base then some v else none
  | none => none

/-- One step of the digit-accumulation loop of Go `strconv.ParseUint`:
`acc * base + d`, sticking at the first invalid digit. -/
def digitStep (base : Nat) (acc : Option Nat) (c : Char) : Option Nat :=
  match acc, goDigit base c with
  | some n, some d => some (n * base + d)
  | _, _ => none

/-- The digit-accumulation loop of Go `strconv.ParseUint`: left fold of
`digitStep` over the characters. The value is kept exact (no clamping);
the caller applies the range check, and clamped range-error values never
reach a successful result. -/
def foldDigits (base : Nat) (cs : List Char) : Option Nat :=
  cs.foldl (digitStep base) (some 0)

/-- Go `strconv.ParseInt` after the sign has been picked off: one or more
base-`base` digits whose signed value must fit in 8 bits (`ParseUint`'s
clamped range errors and `ParseInt`'s own cutoff check both end in an error,
so success requires `v ≤ 127`, or `v ≤ 128` under a leading `'-'`). -/
def parseInt8Core (base : Nat) (neg : Bool) (ds : List Char) : Option Int :=
  match ds with
  | [] => none
  | _ =>
    match foldDigits base ds with
    | none => none
    | some v =>
      if neg then
        if v ≤ 128 then some (-(v : Int)) else none
      else
        if v ≤ 127 then some (v : Int) else none

/-- Go `strconv.ParseInt(s, base, 8)`: optional single leading `'+'`/`'-'`,
then one or more base-`base` digits; the signed result must fit in 8 bits
(`-128 ≤ v ≤ 127`). Any syntax or range error is `none` (the Go callers in
this repository only test `err == nil`, never which error occurred). -/
def parseInt8 (base : Nat) (s : String) : Option Int :=
  match s.data with
  | [] => none
  | c :: rest =>
    if c = '+' then parseInt8Core base false rest
    else if c = '-' then parseInt8Core base true rest
    else parseInt8Core base false (c :: rest)

/-- `convertBinaryToDecimal(week)`: `strconv.ParseInt(week, 2, 8)`. -/
def convertBinaryToDecimal (week : String) : Option Int :=
  parseInt8 2 week

/-- Go `strconv.FormatInt(n, 10)`: decimal digits with a leading `'-'` for
negative values. -/
def formatInt (n : Int) : String :=
  if n < 0 then "-" ++ String.mk (Nat.toDigits 10 n.natAbs)
  else String.mk (Nat.toDigits 10 n.toNat)

/-- Go `fmt.Sprintf("%07b", n)`: binary digits of the absolute value,
zero-padded so that the whole output (sign included) is at least 7 characters,
with the padding inserted after the sign. -/
def sprintf07b (n : Int) : String :=
  if n < 0 then
    let mag := Nat.toDigits 2 n.natAbs
    String.mk ('-' :: (List.replicate (6 - mag.length) '0' ++ mag))
  else
    let mag := Nat.toDigits 2 n.toNat
    String.mk (List.replicate (7 - mag.length) '0' ++ mag)

/-- Character-level worker for Go `strings.Split(s, "|")`. -/
def splitPipeAux : List Char → List Char → List (List Char)
  | [], acc => [acc.reverse]
  | c :: rest, acc =>
    if c = '|' then acc.reverse :: splitPipeAux rest []
    else splitPipeAux rest (c :: acc)

/-- Go `strings.Split(s, "|")`: split at every `'|'`; the empty string yields
`[""]`. -/
def splitPipe (s : String) : List String :=
  (splitPipeAux s.data []).map String.mk

/-- Go `strings.Join(xs, "|")`. -/
def joinPipe : List String → String
  | [] => ""
  | [x] => x
  | x :: y :: xs => x ++ "|" ++ joinPipe (y :: xs)

/-- `convertDecimalWeekToBinary(binaryWeeks)`: split the stored string on
`'|'`; every token that `strconv.ParseInt(week, 10, 8)` accepts is replaced by
its `%07b` rendering, every other token is kept unchanged. -/
def convertDecimalWeekToBinary (binaryWeeks : String) : List String :=
  (splitPipe binaryWeeks).map fun week =>
    match parseInt8 10 week with
    | some num => sprintf07b num
    | none => week

/-- `IsBinaryString(s)`: every character is `'0'` or `'1'`. -/
def IsBinaryString (s : String) : Bool :=
  s.data.all fun c => c == '0' || c == '1'

/-- The request/response shape decoded from JSON (`Instance` struct). -/
structure Instance where
  instanceID : String
  username : String
  binaryWeeks : List String
  creationDate : String
deriving Repr, DecidableEq

/-- The persisted document shape (`MongoRecord` struct): `binaryWeeks` is one
`'|'`-joined string of decimal tokens. -/
structure MongoRecord where
  instanceID : String
  username : String
  binaryWeeks : String
  creationDate : String
deriving Repr, DecidableEq

/-- The collection, modelled as its documents in insertion order. -/
abbrev Store := List MongoRecord

/-- `collection.CountDocuments(ctx, bson.M{"instanceId": id, "username": user})`. -/
def countDocuments (store : Store) (id user : String) : Nat :=
  (store.filter fun r => r.instanceID == id && r.username == user).length

/-- `getCreationDateByInstanceId(collection, id)`: `FindOne` on
`{"instanceId": id}` returns the first matching document; on error (no match)
the function returns `""`, otherwise the match's `CreationDate`. -/
def getCreationDateByInstanceId (store : Store) (id : String) : String :=
  match store.find? (fun r => r.instanceID == id) with
  | some r => r.creationDate
  | none => ""

/-- The HTTP outcomes the handlers produce (after a successful JSON decode). -/
inductive HandlerResp where
  /-- `http.Error(w, msg, http.StatusBadRequest)` -/
  | badRequest (msg : String)
  /-- `http.Error(w, msg, http.StatusNotFound)` -/
  | notFound (msg : String)
  /-- `http.Error(w, msg, http.StatusInternalServerError)` -/
  | serverError (msg : String)
  /-- 200 with `{"instanceId": iid}` -/
  | okInstanceId (iid : String)
  /-- 200 with `{"message": msg}` -/
  | okMessage (msg : String)
deriving Repr, DecidableEq

/-- The `for i, week := range rv.BinaryWeeks` loop of the `POST /instance`
handler: each week must pass `IsBinaryString` and have length 7 (else 400
`"Invalid data :("`), then `convertBinaryToDecimal` runs (an error there is
500), and the week is replaced by `strconv.FormatInt(decimalWeek, 10)`.
(Go measures `len(week)` in bytes; for any string containing a multi-byte
character `IsBinaryString` is already false, so character count is
equivalent here.) -/
def encodeWeeksLoop : List String → Except HandlerResp (List String)
  | [] => .ok []
  | week :: rest =>
    if !IsBinaryString week || week.data.length ≠ 7 then
      .error (.badRequest "Invalid data :(")
    else
      match convertBinaryToDecimal week with
      | none => .error (.serverError "There was an issue during the conversion process :(")
      | some decimalWeek => (encodeWeeksLoop rest).map (formatInt decimalWeek :: ·)

/-- The `POST /instance` handler body after a successful JSON decode.
`today` is `time.Now().Format("2006/01/02")` and `uuid` is
`uuid.New().String()`. Returns the response and the collection after the
request (unchanged unless `InsertOne` ran). -/
def postInstance (store : Store) (rv : Instance) (today uuid : String) :
    HandlerResp × Store :=
  if rv.username = "" ∨ rv.binaryWeeks = [] then
    (.badRequest "Missing required fields", store)
  else
    let iid := if rv.instanceID = "" then uuid else rv.instanceID
    match encodeWeeksLoop rv.binaryWeeks with
    | .error e => (e, store)
    | .ok decWeeks =>
      if countDocuments store iid rv.username > 0 then
        (.badRequest "Username already exists for this instance", store)
      else
        let creationDate :=
          if iid ≠ "" then getCreationDateByInstanceId store iid else today
        let doc : MongoRecord :=
          { instanceID := iid, username := rv.username,
            binaryWeeks := joinPipe decWeeks, creationDate := creationDate }
        (.okInstanceId iid, store ++ [doc])

/-- One stored record converted back to the response shape by the
`GET /instance/{id}` handler. -/
def recordToInstance (data : MongoRecord) : Instance :=
  { instanceID := data.instanceID, username := data.username,
    binaryWeeks := convertDecimalWeekToBinary data.binaryWeeks,
    creationDate := data.creationDate }

/-- The `GET /instance/{id}` handler body when the store calls succeed:
`Find` on `{"instanceId": id}` yields the matching documents in order, and the
`for _, data := range records` loop appends one `Instance` per record. -/
def getInstance (store : Store) (id : String) : List Instance :=
  let records := store.filter fun r => r.instanceID == id
  records.foldl (fun instances data => instances ++ [recordToInstance data]) []

/-- `collection.DeleteOne(ctx, filter)`: removes the first matching document;
returns the remaining documents and `DeletedCount`. -/
def deleteOne (p : MongoRecord → Bool) : Store → Store × Nat
  | [] => ([], 0)
  | r :: rest =>
    if p r then (rest, 1)
    else
      let res := deleteOne p rest
      (r :: res.1, res.2)

/-- The `DELETE /instance/{id}/{username}` handler body when the store call
succeeds: `DeleteOne` on `{"instanceId": id, "username": username}`; a zero
`DeletedCount` is 404, otherwise 200 with a confirmation message. -/
def deleteInstance (store : Store) (id username : String) :
    HandlerResp × Store :=
  let res := deleteOne (fun r => r.instanceID == id && r.username == username) store
  if res.2 = 0 then (.notFound "No records found to delete", store)
  else (.okMessage "Record deleted successfully", res.1)

/-- One request against the service's mutating endpoints. -/
inductive Request where
  | post (rv : Instance) (today uuid : String)
  | del (id username : String)

/-- Effect of one request on the collection. -/
def applyRequest (store : Store) : Request → Store
  | .post rv today uuid => (postInstance store rv today uuid).2
  | .del id username => (deleteInstance store id username).2

/-- The freshly generated identifier of a post request is a real UUID string,
in particular nonempty. -/
def uuidOk : Request → Prop
  | .post _ _ uuid => uuid ≠ ""
  | .del _ _ => True

/-- All records sharing an `instanceId` carry the same `creationDate`. -/
def sameCreationDate (store : Store) : Prop :=
  ∀ r1 ∈ store, ∀ r2 ∈ store,
    r1.instanceID = r2.instanceID → r1.creationDate = r2.creationDate

/-- The base-2 value of a character list under the `'1'`-bit reading. -/
def binVal (cs : List Char) : Nat :=
  cs.foldl (fun a c => a * 2 + (if c = '1' then 1 else 0)) 0

lemma sameCreationDate_nil : sameCreationDate [] := by
  intro r1 h1
  exact absurd h1 (List.not_mem_nil r1)

lemma isBinary_mem (s : String) (h : IsBinaryString s = true) :
    ∀ c ∈ s.data, c = '0' ∨ c = '1' := by
  intro c hc
  have h' := List.all_eq_true.mp h c hc
  simpa using h'

lemma deleteOne_count_eq_zero (p : MongoRecord → Bool) (l : Store) :
    (deleteOne p l).2 = 0 ↔ ∀ r ∈ l, p r = false := by
  induction l with
  | nil => simp [deleteOne]
  | cons x xs ih =>
    by_cases hp : p x
    · simp [deleteOne, hp]
    · simp [deleteOne, hp, ih, Bool.not_eq_true] at *

/-- C5: a decoded `POST /instance` body with an empty `username` or an empty
`binaryWeeks` list is answered with 400 `"Missing required fields"` and the
collection is left untouched. -/
theorem post_missing_fields (store : Store) (rv : Instance) (today uuid : String)
    (h : rv.username = "" ∨ rv.binaryWeeks = []) :
    postInstance store rv today uuid = (.badRequest "Missing required fields", store) := by
  simp only [postInstance]
  rw [if_pos h]

theorem post_missing_fields_witness :
    postInstance [] ⟨"", "", [], ""⟩ "2026/10/11" "u1"
      = (.badRequest "Missing required fields", []) :=
  post_missing_fields [] ⟨"", "", [], ""⟩ "2026/10/11" "u1" (Or.inl rfl)

/-- C2: evaluating the handler on a first request for a fresh `instanceId`
(empty collection, current date `"2026/10/11"`, generated id `"u1"`): the
record is inserted with `creationDate = ""`, not the current date, because
the `rv.InstanceID != ""` guard is always true once the id has been filled
in, so the `time.Now()` value is unconditionally overwritten by
`getCreationDateByInstanceId`, which returns `""` when no record exists. -/
theorem post_first_record_creationDate_empty :
    postInstance [] ⟨"", "alice", ["1010101"], ""⟩ "2026/10/11" "u1"
      = (.okInstanceId "u1",
         [{ instanceID := "u1", username := "alice",
            binaryWeeks := "85", creationDate := "" }]) := by
  decide

/-- C3 counterexample: `"101"` is not a 7-character string over `{0,1}`, yet
`convertBinaryToDecimal` succeeds on it (Go `strconv.ParseInt(s, 2, 8)` does
not care about the length), refuting the claim that encode fails for every
string of the wrong length. -/
theorem encode_succeeds_on_wrong_length :
    ("101" : String).length ≠ 7 ∧ IsBinaryString "101" = true ∧
      convertBinaryToDecimal "101" = some 5 := by
  decide

/-- C8: the delete handler answers 404 `"No records found to delete"` exactly
when `DeleteOne` removed nothing, and 200 with the confirmation message
otherwise; the deleted count is zero precisely when no stored record matches
the `(id, username)` pair. -/
theorem delete_status (store : Store) (id username : String) :
    ((deleteOne (fun r => r.instanceID == id && r.username == username) store).2 = 0 →
      deleteInstance store id username = (.notFound "No records found to delete", store))
    ∧ ((deleteOne (fun r => r.instanceID == id && r.username == username) store).2 ≠ 0 →
      (deleteInstance store id username).1 = .okMessage "Record deleted successfully")
    ∧ ((deleteOne (fun r => r.instanceID == id && r.username == username) store).2 = 0 ↔
      ∀ r ∈ store, ¬(r.instanceID = id ∧ r.username = username)) := by
  refine ⟨?_, ?_, ?_⟩
  · intro h0
    simp [deleteInstance, h0]
  · intro hne
    simp [deleteInstance, hne]
  · rw [deleteOne_count_eq_zero]
    refine forall₂_congr fun r _ => ?_
    simp [not_and]

theorem delete_status_witness :
    deleteInstance [] "i1" "alice" = (.notFound "No records found to delete", []) :=
  (delete_status [] "i1" "alice").1 rfl

lemma foldl_digitStep_some (cs : List Char) (hb : ∀ c ∈ cs, c = '0' ∨ c = '1') :
    ∀ a : Nat, cs.foldl (digitStep 2) (some a)
      = some (cs.foldl (fun x c => x * 2 + (if c = '1' then 1 else 0)) a) := by
  induction cs with
  | nil => intro a; rfl
  | cons c rest ih =>
    intro a
    have hrest : ∀ x ∈ rest, x = '0' ∨ x = '1' := fun x hx => hb x (List.mem_cons_of_mem _ hx)
    have hc := hb c (List.mem_cons_self c rest)
    simp only [List.foldl_cons]
    rcases hc with rfl | rfl
    · rw [show digitStep 2 (some a) '0' = some (a * 2 + 0) from rfl, ih hrest,
        if_neg (by decide : ¬('0' : Char) = '1')]
    · rw [show digitStep 2 (some a) '1' = some (a * 2 + 1) from rfl, ih hrest,
        if_pos rfl]

lemma foldl_binVal_lt (cs : List Char) :
    ∀ a : Nat, cs.foldl (fun x c => x * 2 + (if c = '1' then 1 else 0)) a
      < (a + 1) * 2 ^ cs.length := by
  induction cs with
  | nil => intro a; simp
  | cons c rest ih =>
    intro a
    simp only [List.foldl_cons, List.length_cons, pow_succ]
    refine lt_of_lt_of_le (ih (a * 2 + (if c = '1' then 1 else 0))) ?_
    have h2 : a * 2 + (if c = '1' then 1 else 0) + 1 ≤ (a + 1) * 2 := by
      split <;> omega
    calc (a * 2 + (if c = '1' then 1 else 0) + 1) * 2 ^ rest.length
        ≤ ((a + 1) * 2) * 2 ^ rest.length := Nat.mul_le_mul_right _ h2
      _ = (a + 1) * (2 ^ rest.length * 2) := by ring

lemma binVal_lt (cs : List Char) : binVal cs < 2 ^ cs.length := by
  simpa [binVal] using foldl_binVal_lt cs 0

lemma foldDigits_eq_binVal (cs : List Char) (hb : ∀ c ∈ cs, c = '0' ∨ c = '1') :
    foldDigits 2 cs = some (binVal cs) :=
  foldl_digitStep_some cs hb 0

/-- C6: every 7-character string over `{0,1}` is accepted by
`convertBinaryToDecimal` with a value between 0 and 127, and the maximum
input `"1111111"` encodes to 127 (within the signed 8-bit bound of the
parser). -/
theorem encode_range :
    (∀ s : String, s.length = 7 → IsBinaryString s = true →
      ∃ n : Int, convertBinaryToDecimal s = some n ∧ 0 ≤ n ∧ n ≤ 127)
    ∧ convertBinaryToDecimal "1111111" = some 127 := by
  constructor
  · intro s h7 hbin
    have hmem := isBinary_mem s hbin
    obtain ⟨cs⟩ := s
    have h7' : cs.length = 7 := h7
    cases cs with
    | nil => simp at h7'
    | cons c rest =>
      have hc : c = '0' ∨ c = '1' := hmem c (List.mem_cons_self c rest)
      have hplus : ¬c = '+' := by rcases hc with rfl | rfl <;> decide
      have hminus : ¬c = '-' := by rcases hc with rfl | rfl <;> decide
      have hval : foldDigits 2 (c :: rest) = some (binVal (c :: rest)) :=
        foldDigits_eq_binVal _ hmem
      have h127 : binVal (c :: rest) ≤ 127 := by
        have hlt := binVal_lt (c :: rest)
        rw [h7'] at hlt
        norm_num at hlt
        omega
      refine ⟨(binVal (c :: rest) : Int), ?_, Int.ofNat_nonneg _, by exact_mod_cast h127⟩
      show parseInt8 2 ⟨c :: rest⟩ = _
      simp only [parseInt8, if_neg hplus, if_neg hminus, parseInt8Core, hval]
      rw [if_pos h127]
      simp
  · decide

theorem encode_range_witness :
    ∃ n : Int, convertBinaryToDecimal "1010101" = some n ∧ 0 ≤ n ∧ n ≤ 127 :=
  encode_range.1 "1010101" rfl rfl

lemma char_eq_of_toNat {c d : Char} (h : c.toNat = d.toNat) : c = d := by
  have h1 : Char.ofNat c.toNat = Char.ofNat d.toNat := by rw [h]
  rwa [Char.ofNat_toNat, Char.ofNat_toNat] at h1

lemma goDigit2_eq_none {c : Char} (h0 : c ≠ '0') (h1 : c ≠ '1') :
    goDigit 2 c = none := by
  have hn0 : c.toNat ≠ 48 := fun hc => h0 (char_eq_of_toNat hc)
  have hn1 : c.toNat ≠ 49 := fun hc => h1 (char_eq_of_toNat hc)
  simp only [goDigit]
  by_cases hd : 48 ≤ c.toNat ∧ c.toNat ≤ 57
  · rw [if_pos hd]
    have hge : ¬(c.toNat - 48 < 2) := by omega
    simp [hge]
  · rw [if_neg hd]
    by_cases hl : 97 ≤ (c.toNat ||| 32) ∧ (c.toNat ||| 32) ≤ 122
    · rw [if_pos hl]
      have hge : ¬((c.toNat ||| 32) - 97 + 10 < 2) := by omega
      simp [hge]
    · rw [if_neg hl]

lemma foldl_digitStep_none (base : Nat) (cs : List Char) :
    cs.foldl (digitStep base) none = none := by
  induction cs with
  | nil => rfl
  | cons c rest ih =>
    have hstep : digitStep base none c = none := by
      cases h : goDigit base c <;> rfl
    simp only [List.foldl_cons, hstep, ih]

lemma foldl_some_none (base : Nat) (c : Char) (hnone : goDigit base c = none) :
    ∀ cs : List Char, c ∈ cs → ∀ a : Nat,
      cs.foldl (digitStep base) (some a) = none := by
  intro cs
  induction cs with
  | nil => intro h; cases h
  | cons x rest ih =>
    intro hc a
    simp only [List.foldl_cons]
    rcases List.mem_cons.mp hc with rfl | hmem
    · have hx : digitStep base (some a) c = none := by simp [digitStep, hnone]
      rw [hx]
      exact foldl_digitStep_none base rest
    · cases hstep : digitStep base (some a) x with
      | none => exact foldl_digitStep_none base rest
      | some b => exact ih hmem b

lemma parseInt8Core_eq_none_of_bad (base : Nat) (neg : Bool) (ds : List Char)
    (c : Char) (hc : c ∈ ds) (hnone : goDigit base c = none) :
    parseInt8Core base neg ds = none := by
  cases ds with
  | nil => rfl
  | cons x xs =>
    have hfold : foldDigits base (x :: xs) = none :=
      foldl_some_none base c hnone _ hc 0
    simp only [parseInt8Core, hfold]

lemma parseInt8_nil (base : Nat) : parseInt8 base ⟨[]⟩ = none := rfl

lemma parseInt8_cons (base : Nat) (c : Char) (rest : List Char) :
    parseInt8 base ⟨c :: rest⟩ =
      if c = '+' then parseInt8Core base false rest
      else if c = '-' then parseInt8Core base true rest
      else parseInt8Core base false (c :: rest) := rfl

/-- C3 amended: `convertBinaryToDecimal` fails whenever the input contains a
character other than `'0'`/`'1'` that is not a leading `'+'` or `'-'` (the
original claim's wrong-length clause is refuted by `"101"`, which encodes
successfully, and its non-binary-character clause holds only for characters
that are not a leading sign, as `"-101"` also encodes successfully). -/
theorem encode_fails_on_invalid_char (s : String)
    (h : ∃ pre c post, s.data = pre ++ c :: post ∧ ¬(c = '0' ∨ c = '1') ∧
        (pre = [] → ¬(c = '+' ∨ c = '-'))) :
    convertBinaryToDecimal s = none := by
  obtain ⟨pre, c, post, hcs, hbad, hsign⟩ := h
  push_neg at hbad
  obtain ⟨h0, h1⟩ := hbad
  have hnone : goDigit 2 c = none := goDigit2_eq_none h0 h1
  show parseInt8 2 s = none
  obtain ⟨cs⟩ := s
  have hcs' : cs = pre ++ c :: post := hcs
  subst hcs'
  cases pre with
  | nil =>
    push_neg at hsign
    obtain ⟨hp, hm⟩ := hsign rfl
    simp only [List.nil_append]
    rw [parseInt8_cons, if_neg hp, if_neg hm]
    exact parseInt8Core_eq_none_of_bad 2 false (c :: post) c
      (List.mem_cons_self c post) hnone
  | cons p pre' =>
    simp only [List.cons_append]
    rw [parseInt8_cons]
    have hmem : c ∈ pre' ++ c :: post :=
      List.mem_append_right _ (List.mem_cons_self c post)
    by_cases hp : p = '+'
    · rw [if_pos hp]
      exact parseInt8Core_eq_none_of_bad 2 false _ c hmem hnone
    · rw [if_neg hp]
      by_cases hm : p = '-'
      · rw [if_pos hm]
        exact parseInt8Core_eq_none_of_bad 2 true _ c hmem hnone
      · rw [if_neg hm]
        exact parseInt8Core_eq_none_of_bad 2 false _ c
          (List.mem_cons_of_mem p hmem) hnone

theorem encode_fails_on_invalid_char_witness :
    convertBinaryToDecimal "102" = none :=
  encode_fails_on_invalid_char "102"
    ⟨['1', '0'], '2', [], rfl, by decide, by decide⟩

lemma parseInt8Core_range {base : Nat} {neg : Bool} {ds : List Char} {n : Int}
    (h : parseInt8Core base neg ds = some n) : -128 ≤ n ∧ n ≤ 127 := by
  cases ds with
  | nil => cases h
  | cons x xs =>
    simp only [parseInt8Core] at h
    cases hfold : foldDigits base (x :: xs) with
    | none => rw [hfold] at h; cases h
    | some v =>
      rw [hfold] at h
      cases neg with
      | false =>
        simp only [Bool.false_eq_true, if_false] at h
        by_cases hv : v ≤ 127
        · rw [if_pos hv] at h
          obtain rfl : (v : Int) = n := Option.some_inj.mp h
          constructor
          · exact le_trans (by norm_num) (Int.ofNat_nonneg v)
          · exact_mod_cast hv
        · rw [if_neg hv] at h; cases h
      | true =>
        simp only [if_true] at h
        by_cases hv : v ≤ 128
        · rw [if_pos hv] at h
          obtain rfl : -(v : Int) = n := Option.some_inj.mp h
          constructor
          · have : (v : Int) ≤ 128 := by exact_mod_cast hv
            omega
          · have : (0 : Int) ≤ (v : Int) := Int.ofNat_nonneg v
            omega
        · rw [if_neg hv] at h; cases h

lemma parseInt8_range {base : Nat} {s : String} {n : Int}
    (h : parseInt8 base s = some n) : -128 ≤ n ∧ n ≤ 127 := by
  obtain ⟨cs⟩ := s
  cases cs with
  | nil => rw [parseInt8_nil] at h; cases h
  | cons c rest =>
    rw [parseInt8_cons] at h
    by_cases hp : c = '+'
    · rw [if_pos hp] at h; exact parseInt8Core_range h
    · rw [if_neg hp] at h
      by_cases hm : c = '-'
      · rw [if_pos hm] at h; exact parseInt8Core_range h
      · rw [if_neg hm] at h; exact parseInt8Core_range h

/-- C10: `convertDecimalWeekToBinary` is total: it yields exactly one output
element per `'|'`-separated token, each token being replaced by the `%07b`
form of its parsed value when `strconv.ParseInt(week, 10, 8)` accepts it and
passed through unchanged otherwise; any accepted value lies in the signed
8-bit range `-128..127` (so corrupted values above 127 are passed through). -/
theorem decode_per_token (s : String) :
    (convertDecimalWeekToBinary s).length = (splitPipe s).length
    ∧ (∀ i (h1 : i < (splitPipe s).length) (h2 : i < (convertDecimalWeekToBinary s).length),
        (convertDecimalWeekToBinary s).get ⟨i, h2⟩ =
          match parseInt8 10 ((splitPipe s).get ⟨i, h1⟩) with
          | some num => sprintf07b num
          | none => (splitPipe s).get ⟨i, h1⟩)
    ∧ (∀ (w : String) (n : Int), parseInt8 10 w = some n → -128 ≤ n ∧ n ≤ 127) := by
  refine ⟨?_, ?_, ?_⟩
  · simp [convertDecimalWeekToBinary]
  · intro i h1 h2
    simp only [convertDecimalWeekToBinary, List.get_eq_getElem, List.getElem_map]
  · intro w n h
    exact parseInt8_range h

theorem decode_per_token_witness :
    (convertDecimalWeekToBinary "85|300|zz").length = (splitPipe "85|300|zz").length
    ∧ (-128 ≤ (85 : Int) ∧ (85 : Int) ≤ 127) :=
  ⟨(decode_per_token "85|300|zz").1,
   (decode_per_token "85|300|zz").2.2 "85" 85 (by decide)⟩

lemma foldl_append_eq_map {α β : Type _} (f : α → β) (l : List α) :
    ∀ init : List β, l.foldl (fun acc x => acc ++ [f x]) init = init ++ l.map f := by
  induction l with
  | nil => intro init; simp
  | cons x xs ih => intro init; simp [ih]

/-- C9: the fetch handler returns one response element per stored record
whose `instanceId` matches, in order, each with the stored `binaryWeeks`
string decoded through `convertDecimalWeekToBinary` (via `recordToInstance`);
when nothing matches it returns the empty list rather than an error. -/
theorem get_instance_spec (store : Store) (id : String) :
    getInstance store id
      = (store.filter fun r => r.instanceID == id).map recordToInstance
    ∧ ((∀ r ∈ store, r.instanceID ≠ id) → getInstance store id = []) := by
  have hmain : getInstance store id
      = (store.filter fun r => r.instanceID == id).map recordToInstance := by
    show (store.filter fun r => r.instanceID == id).foldl
        (fun instances data => instances ++ [recordToInstance data]) []
      = (store.filter fun r => r.instanceID == id).map recordToInstance
    rw [foldl_append_eq_map recordToInstance _ []]
    exact List.nil_append _
  refine ⟨hmain, fun hnone => ?_⟩
  rw [hmain]
  have hfil : store.filter (fun r => r.instanceID == id) = [] := by
    rw [List.filter_eq_nil_iff]
    intro r hr
    simpa using hnone r hr
  rw [hfil]
  rfl

theorem get_instance_spec_witness :
    getInstance [⟨"a", "u", "85", "d"⟩] "b" = [] :=
  (get_instance_spec [⟨"a", "u", "85", "d"⟩] "b").2 (by decide)

lemma list_length_seven {α : Type _} {l : List α} (h : l.length = 7) :
    ∃ a b c d e f g, l = [a, b, c, d, e, f, g] := by
  rcases l with _ | ⟨a, _ | ⟨b, _ | ⟨c, _ | ⟨d, _ | ⟨e, _ | ⟨f, _ | ⟨g, _ | ⟨x, t⟩⟩⟩⟩⟩⟩⟩⟩ <;>
    simp only [List.length_cons, List.length_nil] at h <;>
    first
      | exact ⟨a, b, c, d, e, f, g, rfl⟩
      | omega

/-- C1: encoding any 7-character string over `{0,1}` with
`convertBinaryToDecimal`, printing the value in decimal as the handler does,
and decoding that token with `convertDecimalWeekToBinary` yields the original
string back (as the single element of the decoded list). -/
theorem decode_encode_roundtrip (s : String) (h7 : s.length = 7)
    (hbin : IsBinaryString s = true) :
    (convertBinaryToDecimal s).map
      (fun n => convertDecimalWeekToBinary (formatInt n)) = some [s] := by
  have hmem := isBinary_mem s hbin
  obtain ⟨cs⟩ := s
  have h7' : cs.length = 7 := h7
  obtain ⟨a, b, c, d, e, f, g, rfl⟩ := list_length_seven h7'
  have ha : a = '0' ∨ a = '1' := hmem a (by simp)
  have hb : b = '0' ∨ b = '1' := hmem b (by simp)
  have hc : c = '0' ∨ c = '1' := hmem c (by simp)
  have hd : d = '0' ∨ d = '1' := hmem d (by simp)
  have he : e = '0' ∨ e = '1' := hmem e (by simp)
  have hf : f = '0' ∨ f = '1' := hmem f (by simp)
  have hg : g = '0' ∨ g = '1' := hmem g (by simp)
  clear hmem hbin h7 h7'
  rcases ha with rfl | rfl <;> rcases hb with rfl | rfl <;> rcases hc with rfl | rfl <;>
    rcases hd with rfl | rfl <;> rcases he with rfl | rfl <;> rcases hf with rfl | rfl <;>
    rcases hg with rfl | rfl <;> decide

theorem decode_encode_roundtrip_witness :
    (convertBinaryToDecimal "1010101").map
      (fun n => convertDecimalWeekToBinary (formatInt n)) = some ["1010101"] :=
  decode_encode_roundtrip "1010101" rfl rfl

/-- C4: once a decoded request has passed the field and week-format checks,
the handler queries the count of records with the exact `(instanceId,
username)` pair; a nonzero count yields 400 `"Username already exists for
this instance"` with no insert, and the store is only ever extended when
that count is zero. -/
theorem post_duplicate_check (store : Store) (rv : Instance) (today uuid : String)
    (hu : rv.username ≠ "") (hw : rv.binaryWeeks ≠ [])
    (decWeeks : List String)
    (henc : encodeWeeksLoop rv.binaryWeeks = .ok decWeeks) :
    (countDocuments store (if rv.instanceID = "" then uuid else rv.instanceID)
        rv.username ≠ 0 →
      postInstance store rv today uuid
        = (.badRequest "Username already exists for this instance", store))
    ∧ ((postInstance store rv today uuid).2 ≠ store →
      countDocuments store (if rv.instanceID = "" then uuid else rv.instanceID)
        rv.username = 0) := by
  have hcond : ¬(rv.username = "" ∨ rv.binaryWeeks = []) := by
    push_neg
    exact ⟨hu, hw⟩
  constructor
  · intro hcnt
    simp only [postInstance, if_neg hcond, henc]
    rw [if_pos (show countDocuments store
      (if rv.instanceID = "" then uuid else rv.instanceID) rv.username > 0 by omega)]
  · intro hne
    by_contra hcnt
    apply hne
    simp only [postInstance, if_neg hcond, henc]
    rw [if_pos (show countDocuments store
      (if rv.instanceID = "" then uuid else rv.instanceID) rv.username > 0 by omega)]

theorem post_duplicate_check_witness :
    postInstance [⟨"i1", "alice", "85", "d"⟩] ⟨"i1", "alice", ["1010101"], ""⟩
        "t" "u"
      = (.badRequest "Username already exists for this instance",
         [⟨"i1", "alice", "85", "d"⟩]) :=
  (post_duplicate_check [⟨"i1", "alice", "85", "d"⟩]
    ⟨"i1", "alice", ["1010101"], ""⟩ "t" "u" (by decide) (by decide)
    ["85"] rfl).1 (by decide)

lemma mem_deleteOne (p : MongoRecord → Bool) (l : Store) :
    ∀ r ∈ (deleteOne p l).1, r ∈ l := by
  induction l with
  | nil => intro r hr; simp [deleteOne] at hr
  | cons x xs ih =>
    intro r hr
    by_cases hp : p x
    · simp only [deleteOne, if_pos hp] at hr
      exact List.mem_cons_of_mem x hr
    · simp only [deleteOne, if_neg hp] at hr
      rcases List.mem_cons.mp hr with rfl | hmem
      · exact List.mem_cons_self r xs
      · exact List.mem_cons_of_mem x (ih r hmem)

lemma getCreationDate_eq_of_mem (store : Store) (iid : String) (r : MongoRecord)
    (hr : r ∈ store) (hid : r.instanceID = iid) (hinv : sameCreationDate store) :
    getCreationDateByInstanceId store iid = r.creationDate := by
  have hsome : (store.find? fun x => x.instanceID == iid).isSome := by
    rw [List.find?_isSome]
    exact ⟨r, hr, by simp [hid]⟩
  obtain ⟨r0, hr0⟩ := Option.isSome_iff_exists.mp hsome
  have hr0mem : r0 ∈ store := List.mem_of_find?_eq_some hr0
  have hr0id : r0.instanceID = iid := by
    have hpred := List.find?_some hr0
    simpa using hpred
  have hval : getCreationDateByInstanceId store iid = r0.creationDate := by
    simp [getCreationDateByInstanceId, hr0]
  rw [hval]
  exact hinv r0 hr0mem r hr (by rw [hr0id, hid])

lemma sameCreationDate_append (store : Store) (doc : MongoRecord)
    (hinv : sameCreationDate store)
    (hdoc : doc.creationDate = getCreationDateByInstanceId store doc.instanceID) :
    sameCreationDate (store ++ [doc]) := by
  have key : ∀ r ∈ store, r.instanceID = doc.instanceID →
      r.creationDate = doc.creationDate := by
    intro r hr hrid
    rw [hdoc]
    exact (getCreationDate_eq_of_mem store doc.instanceID r hr hrid hinv).symm
  intro r1 h1 r2 h2 hid
  rcases List.mem_append.mp h1 with h1s | h1d <;>
    rcases List.mem_append.mp h2 with h2s | h2d
  · exact hinv r1 h1s r2 h2s hid
  · have h2doc : r2 = doc := by simpa using h2d
    rw [h2doc] at hid ⊢
    exact key r1 h1s hid
  · have h1doc : r1 = doc := by simpa using h1d
    rw [h1doc] at hid ⊢
    exact (key r2 h2s hid.symm).symm
  · have h1doc : r1 = doc := by simpa using h1d
    have h2doc : r2 = doc := by simpa using h2d
    rw [h1doc, h2doc]

lemma post_preserves (store : Store) (rv : Instance) (today uuid : String)
    (huuid : uuid ≠ "") (hinv : sameCreationDate store) :
    sameCreationDate (postInstance store rv today uuid).2 := by
  by_cases hcond : rv.username = "" ∨ rv.binaryWeeks = []
  · simp only [postInstance, if_pos hcond]
    exact hinv
  · simp only [postInstance, if_neg hcond]
    cases henc : encodeWeeksLoop rv.binaryWeeks with
    | error e => simp only [henc]; exact hinv
    | ok decWeeks =>
      simp only [henc]
      by_cases hcnt : countDocuments store
          (if rv.instanceID = "" then uuid else rv.instanceID) rv.username > 0
      · simp only [if_pos hcnt]
        exact hinv
      · simp only [if_neg hcnt]
        have hiid : (if rv.instanceID = "" then uuid else rv.instanceID) ≠ "" := by
          by_cases hri : rv.instanceID = ""
          · simpa [hri] using huuid
          · simp only [if_neg hri]
            exact hri
        rw [if_pos hiid]
        exact sameCreationDate_append store _ hinv rfl

lemma delete_preserves (store : Store) (id username : String)
    (hinv : sameCreationDate store) :
    sameCreationDate (deleteInstance store id username).2 := by
  simp only [deleteInstance]
  split
  · exact hinv
  · intro r1 h1 r2 h2 hid
    exact hinv r1 (mem_deleteOne _ store r1 h1) r2 (mem_deleteOne _ store r2 h2) hid

/-- C7: starting from an empty collection, after any sequence of
`POST /instance` and `DELETE /instance/{id}/{username}` requests (with real,
nonempty generated UUIDs), any two stored records sharing an `instanceId`
carry the same `creationDate`; in particular a later record under an existing
`instanceId` always reuses the `creationDate` already present. -/
theorem creationDate_invariant (reqs : List Request)
    (h : ∀ q ∈ reqs, uuidOk q) :
    sameCreationDate (reqs.foldl applyRequest []) := by
  have H : ∀ qs : List Request, (∀ q ∈ qs, uuidOk q) →
      ∀ store : Store, sameCreationDate store →
        sameCreationDate (qs.foldl applyRequest store) := by
    intro qs
    induction qs with
    | nil => intro _ store hs; exact hs
    | cons q rest ih =>
      intro hq store hs
      simp only [List.foldl_cons]
      refine ih (fun x hx => hq x (List.mem_cons_of_mem q hx)) _ ?_
      have hq0 := hq q (List.mem_cons_self q rest)
      cases q with
      | post rv today uuid => exact post_preserves store rv today uuid hq0 hs
      | del id username => exact delete_preserves store id username hs
  exact H reqs h [] sameCreationDate_nil

theorem creationDate_invariant_witness :
    sameCreationDate
      ([Request.post ⟨"", "alice", ["1010101"], ""⟩ "2026/10/11" "u1",
        Request.post ⟨"u1", "bob", ["0000001"], ""⟩ "2026/10/12" "u2"].foldl
        applyRequest []) :=
  creationDate_invariant _ (by
    intro q hq
    rcases List.mem_cons.mp hq with rfl | hq2
    · exact (by decide : ("u1" : String) ≠ "")
    · rcases List.mem_cons.mp hq2 with rfl | hq3
      · exact (by decide : ("u2" : String) ≠ "")
      · cases hq3)

end ShareTime
